import Mathlib

/-!
# Verification of the chat-style TTS panel (`tts.py`)

Shallow embedding of the program in `src/tts.py`.  Python strings are
modelled as `List Char`, Python floats that only ever hold slider values are
modelled as `ℚ`, the wall-clock timestamp (`time.time()` formatted through
`datetime.fromtimestamp(..).strftime(..)`) is modelled as a calendar record
whose fields are what `strftime` prints.  The GUI widgets themselves are not
modelled; the state the widgets read and write (message history, id counter,
current speech worker, slider values, auto-speak flag) is.
-/

namespace TTS

/-- The six ASCII whitespace characters stripped by Python's `str.strip()`
(space, tab, newline, carriage return, vertical tab, form feed). -/
def isPySpace (c : Char) : Bool :=
  c = ' ' || c = '\t' || c = '\n' || c = '\r' || c = '\x0b' || c = '\x0c'

/-- Python `str.strip()` (no argument): drop leading and trailing whitespace. -/
def pyStrip (s : List Char) : List Char :=
  ((s.dropWhile isPySpace).reverse.dropWhile isPySpace).reverse

/-- The decimal digit character for `d` (meaningful for `d < 10`). -/
def digitChar (d : Nat) : Char := Char.ofNat (48 + d)

/-- Numeric value of a digit character. -/
def digitVal (c : Char) : Nat := c.toNat - 48

/-- Digits of `n` in decimal, most significant first, prepended to `acc`;
`fuel` bounds the recursion (any `fuel ≥ n` gives the digits of `n`). -/
def natCharsAux : Nat → Nat → List Char → List Char
  | 0, _, acc => acc
  | fuel + 1, n, acc =>
      if n = 0 then acc
      else natCharsAux fuel (n / 10) (digitChar (n % 10) :: acc)

/-- Decimal rendering of a natural number, as Python's `str`/`format` does. -/
def natChars (n : Nat) : List Char :=
  if n = 0 then ['0'] else natCharsAux n n []

/-- Zero-pad a rendered number on the left to width `w`; Python's `{:0wd}`
format applied to a nonnegative integer. -/
def padZero (w : Nat) (l : List Char) : List Char :=
  List.replicate (w - l.length) '0' ++ l

/-- A local calendar time, the data `strftime` formats.  The program stores
`time.time()` in each message and formats it on demand; we model the stored
timestamp directly by its calendar fields. -/
structure Timestamp where
  year : Nat
  month : Nat
  day : Nat
  hour : Nat
  minute : Nat
  second : Nat
deriving DecidableEq, Repr

/-- `strftime('%H:%M:%S')`, used by `_append_log` for the on-screen line. -/
def fmtHMS (t : Timestamp) : List Char :=
  padZero 2 (natChars t.hour) ++ ':' ::
    (padZero 2 (natChars t.minute) ++ ':' :: padZero 2 (natChars t.second))

/-- `strftime('%Y-%m-%d %H:%M:%S')`, used by `export_log`. -/
def fmtDateTime (t : Timestamp) : List Char :=
  padZero 4 (natChars t.year) ++ '-' ::
    (padZero 2 (natChars t.month) ++ '-' ::
      (padZero 2 (natChars t.day) ++ ' ' :: fmtHMS t))

/-- The `Message` dataclass of `tts.py`: id, timestamp, text. -/
structure Message where
  id : Nat
  ts : Timestamp
  text : List Char
deriving DecidableEq, Repr

/-- The part of an export line before the final newline:
`f"[{m.id:03d} {ts}] {m.text}"` with `ts = strftime('%Y-%m-%d %H:%M:%S')`. -/
def exportEntry (m : Message) : List Char :=
  '[' :: (padZero 3 (natChars m.id) ++ ' ' ::
    (fmtDateTime m.ts ++ ']' :: ' ' :: m.text))

/-- One line written by `export_log`:
`f"[{m.id:03d} {ts}] {m.text}\n"`. -/
def exportLine (m : Message) : List Char :=
  exportEntry m ++ ['\n']

/-- The whole file content written by `export_log` for a history. -/
def exportFile (msgs : List Message) : List Char :=
  (msgs.map exportLine).flatten

/-! ## The speech worker (`SpeechWorker`)

`SpeechWorker.run` performs one blocking utterance on its own engine handle.
The external engine is modelled by the sequence of observable events it
produces during the call: word-boundary callbacks (each recording whether
`stop_flag` was set at that instant, since `on_word` raises `SystemExit`
exactly when `self.stop_flag.is_set()`) and raised exceptions.  `run`'s
`try/except` ladder determines the final value of `self.exc` from that
sequence: a `SystemExit` abort (first `word true`) is swallowed with
`exc` untouched, any other exception is stored in `exc`. -/

/-- One observable event of the engine call inside `SpeechWorker.run`. -/
inductive EngineEvent where
  | word (stopSet : Bool)
  | err (e : List Char)
deriving DecidableEq, Repr

/-- The value `SpeechWorker.run` leaves in `self.exc`, as a function of the
engine events: scanning left to right, the first `word` callback that sees the
stop flag raises `SystemExit`, which the `except SystemExit` arm swallows
(`exc` stays `None`); the first raised exception before that is stored by
`except Exception as e: self.exc = e`; a run that exhausts its events
completed normally with `exc = None`. -/
def runExc : List EngineEvent → Option (List Char)
  | [] => none
  | .word true :: _ => none
  | .word false :: rest => runExc rest
  | .err e :: _ => some e

/-- A `SpeechWorker` as the UI thread sees it: the constructor arguments,
the cooperative `stop_flag`, liveness of the thread, and the captured
failure `exc`. -/
structure SpeechWorker where
  text : List Char
  voiceId : Option (List Char)
  rate : Int
  volume : ℚ
  stopFlag : Bool
  alive : Bool
  exc : Option (List Char)
deriving DecidableEq

/-- `SpeechWorker.stop`: set the cooperative cancel flag. -/
def SpeechWorker.stop (w : SpeechWorker) : SpeechWorker :=
  { w with stopFlag := true }

/-! ## The application state (`ChatTTSApp`) -/

/-- Python `int()` applied to a (rational-valued) float: truncation toward
zero.  Used for `int(self.sld_rate.get())`. -/
def pyInt (q : ℚ) : Int :=
  if 0 ≤ q then ⌊q⌋ else -⌊-q⌋

/-- The volume mapping of `_speak_text`:
`max(0.0, min(1.0, float(self.sld_volume.get()) / 100.0))`. -/
def volClamp (q : ℚ) : ℚ :=
  max 0 (min 1 (q / 100))

/-- The mutable state of `ChatTTSApp` relevant to the transcript and the
speech lifecycle.  `workers` records every `SpeechWorker` ever constructed
(identity = index of construction); `current` is the index the
`current_worker` reference points at, `none` when it is `None`.
`notifications` records the error texts surfaced through
`messagebox.showerror` by `_poll_worker_done`. -/
structure AppState where
  messages : List Message
  nextId : Nat
  workers : List SpeechWorker
  current : Option Nat
  autoSpeak : Bool
  sldRate : ℚ
  sldVolume : ℚ
  voiceSel : Option (List Char)
  notifications : List (List Char)
deriving DecidableEq

/-- The state right after `ChatTTSApp.__init__`: empty history, `next_id = 1`,
no current worker, auto-speak defaulting to on (the checkbox variable starts
`True`; we allow any initial slider/voice values the probe engine produced). -/
def initState (rate vol : ℚ) (voice : Option (List Char)) : AppState :=
  { messages := [], nextId := 1, workers := [], current := none,
    autoSpeak := true, sldRate := rate, sldVolume := vol,
    voiceSel := voice, notifications := [] }

/-- Apply `f` to the element at index `i`, leaving the rest of the list
unchanged. -/
def updAt (f : SpeechWorker → SpeechWorker) :
    List SpeechWorker → Nat → List SpeechWorker
  | [], _ => []
  | w :: ws, 0 => f w :: ws
  | w :: ws, n + 1 => w :: updAt f ws n

/-- `ChatTTSApp.stop_speaking`: if there is a current worker and it is alive,
set its stop flag (the optional bounded `join` only waits, it changes no
state we model). -/
def stop_speaking (s : AppState) : AppState :=
  match s.current with
  | none => s
  | some i =>
      { s with workers :=
          updAt (fun w => if w.alive then w.stop else w) s.workers i }

/-- `ChatTTSApp._speak_text`: cancel the current worker (non-blocking), then
construct a fresh `SpeechWorker` from the live slider/voice settings, make it
the current worker and start it. -/
def speak_text (s : AppState) (text : List Char) : AppState :=
  let s1 := stop_speaking s
  let w : SpeechWorker :=
    { text := text, voiceId := s1.voiceSel, rate := pyInt s1.sldRate,
      volume := volClamp s1.sldVolume, stopFlag := false,
      alive := true, exc := none }
  { s1 with workers := s1.workers ++ [w], current := some s1.workers.length }

/-- `ChatTTSApp.send_message` with the text widget content `input` and the
clock reading `now`: strip the input; an empty result is a no-op; otherwise
append a `Message` with the next id, bump the counter, and auto-speak if the
checkbox is on. -/
def send_message (s : AppState) (input : List Char) (now : Timestamp) :
    AppState :=
  let text := pyStrip input
  if text = [] then s
  else
    let s1 := { s with
      messages := s.messages ++ [⟨s.nextId, now, text⟩],
      nextId := s.nextId + 1 }
    if s1.autoSpeak then speak_text s1 text else s1

/-- `ChatTTSApp.replay_last`: speak the text of the last message, if any. -/
def replay_last (s : AppState) : AppState :=
  match s.messages.getLast? with
  | none => s
  | some m => speak_text s m.text

/-- `ChatTTSApp._poll_worker_done`: if the current worker has finished,
surface its captured failure (if any) and drop the reference; while it is
alive the poll only reschedules itself and changes nothing. -/
def poll_worker_done (s : AppState) : AppState :=
  match s.current with
  | none => s
  | some i =>
      match s.workers[i]? with
      | none => s
      | some w =>
          if w.alive then s
          else
            { s with
              current := none
              notifications := s.notifications ++
                (match w.exc with | some e => [e] | none => []) }

/-- The history update of `ChatTTSApp._ctx_delete` once the id `k` has been
parsed from the clicked line:
`self.messages = [m for m in self.messages if m.id != msg_id]`. -/
def ctx_delete (s : AppState) (k : Nat) : AppState :=
  { s with messages := s.messages.filter (fun m => m.id ≠ k) }

/-- `ChatTTSApp.clear_log`: with a non-empty history and the user confirming,
empty the history (the id counter is not reset). -/
def clear_log (s : AppState) (confirm : Bool) : AppState :=
  if s.messages = [] then s
  else if confirm then { s with messages := [] } else s

/-- The worker thread at index `i` finishing its `run`, having observed the
engine events `evs`: it becomes non-alive and its `exc` field holds whatever
`run` captured. -/
def worker_finish (s : AppState) (i : Nat) (evs : List EngineEvent) :
    AppState :=
  { s with workers :=
      updAt (fun w => { w with alive := false, exc := runExc evs }) s.workers i }

/-! ## Reachable states

The states the application can be in: the initial state, followed by any
interleaving of user actions (submit, replay, stop, delete, clear, widget
changes), the polling loop, and the background worker threads finishing.
A worker thread can only observe the stop flag as set (`word true`) if its
flag really was set — the flag is only ever set, never cleared. -/

/-- All states reachable from `ChatTTSApp.__init__` under the modelled
actions. -/
inductive Reachable : AppState → Prop where
  | init (rate vol : ℚ) (voice : Option (List Char)) :
      Reachable (initState rate vol voice)
  | submit {s} (input : List Char) (now : Timestamp) :
      Reachable s → Reachable (send_message s input now)
  | speak {s} (text : List Char) :
      Reachable s → Reachable (speak_text s text)
  | replay {s} : Reachable s → Reachable (replay_last s)
  | stop {s} : Reachable s → Reachable (stop_speaking s)
  | poll {s} : Reachable s → Reachable (poll_worker_done s)
  | delete {s} (k : Nat) : Reachable s → Reachable (ctx_delete s k)
  | clear {s} (confirm : Bool) :
      Reachable s → Reachable (clear_log s confirm)
  | finish {s} (i : Nat) (evs : List EngineEvent) :
      Reachable s →
      (∀ w, s.workers[i]? = some w → EngineEvent.word true ∈ evs →
        w.stopFlag = true) →
      Reachable (worker_finish s i evs)
  | toggleAuto {s} (b : Bool) :
      Reachable s → Reachable { s with autoSpeak := b }
  | setRate {s} (q : ℚ) : Reachable s → Reachable { s with sldRate := q }
  | setVolume {s} (q : ℚ) : Reachable s → Reachable { s with sldVolume := q }
  | setVoice {s} (v : Option (List Char)) :
      Reachable s → Reachable { s with voiceSel := v }

/-! ## Re-reading an export file

The repository writes export files but never reads them back; the reader
below is the spec's side of the round-trip property. -/

/-- Modelled from the spec: split file content into its lines at newline
characters (the reader half of the round-trip; the repository itself has no
reader). -/
def splitLinesAux : List Char → List Char → List (List Char)
  | [], acc => [acc.reverse]
  | c :: rest, acc =>
      if c = '\n' then acc.reverse :: splitLinesAux rest []
      else splitLinesAux rest (c :: acc)

/-- Modelled from the spec: the lines of a file. -/
def splitLines (s : List Char) : List (List Char) :=
  splitLinesAux s []

/-- Modelled from the spec: a text file ending in a final newline yields no
extra empty entry when read back line by line. -/
def dropTrailingEmpty (ls : List (List Char)) : List (List Char) :=
  if ls.getLast? = some [] then ls.dropLast else ls

/-- Split a list at the first occurrence of `c`: `some (before, after)` with
`c` itself removed, `none` when `c` does not occur. -/
def breakAt (c : Char) : List Char → Option (List Char × List Char)
  | [] => none
  | x :: xs =>
      if x = c then some ([], xs)
      else (breakAt c xs).map (fun p => (x :: p.1, p.2))

/-- Modelled from the spec: read back a decimal number (possibly
zero-padded). -/
def parseNat (l : List Char) : Option Nat :=
  if l ≠ [] ∧ l.all Char.isDigit then
    some (l.foldl (fun a c => 10 * a + digitVal c) 0)
  else none

/-- Modelled from the spec: read one export line
`[<zero-padded id> <timestamp>] <text>` back into its id, its timestamp text
and its message text. -/
def parseLine (l : List Char) : Option (Nat × List Char × List Char) :=
  match l with
  | '[' :: rest =>
      match breakAt ']' rest with
      | none => none
      | some (header, tail) =>
          match breakAt ' ' header with
          | none => none
          | some (idPart, tsPart) =>
              match parseNat idPart, tail with
              | some n, ' ' :: text => some (n, tsPart, text)
              | _, _ => none
  | _ => none

/-- Modelled from the spec: parse every line, failing if any line is not an
export line. -/
def parseAll : List (List Char) → Option (List (Nat × List Char × List Char))
  | [] => some []
  | l :: ls =>
      match parseLine l, parseAll ls with
      | some e, some es => some (e :: es)
      | _, _ => none

/-- Modelled from the spec: re-read a whole export file. -/
def readExport (s : List Char) : Option (List (Nat × List Char × List Char)) :=
  parseAll (dropTrailingEmpty (splitLines s))

/-! ## Helper lemmas: decimal rendering -/

lemma natCharsAux_eq_digits {fuel n : Nat} (h : n ≤ fuel) (acc : List Char) :
    natCharsAux fuel n acc = ((Nat.digits 10 n).map digitChar).reverse ++ acc := by
  induction fuel generalizing n acc with
  | zero =>
      interval_cases n
      simp [natCharsAux]
  | succ fuel ih =>
      by_cases h0 : n = 0
      · subst h0; simp [natCharsAux]
      · have hdiv : n / 10 ≤ fuel := by
          have := Nat.div_lt_self (Nat.pos_of_ne_zero h0) (by norm_num : 1 < 10)
          omega
        rw [natCharsAux, if_neg h0, ih hdiv,
          Nat.digits_def' (by norm_num : (1:ℕ) < 10) (Nat.pos_of_ne_zero h0)]
        simp

lemma natChars_eq_digits (n : Nat) :
    natChars n =
      if n = 0 then ['0'] else ((Nat.digits 10 n).map digitChar).reverse := by
  unfold natChars
  by_cases h0 : n = 0
  · simp [h0]
  · rw [if_neg h0, if_neg h0, natCharsAux_eq_digits le_rfl]
    simp

lemma mem_natChars {c : Char} {n : Nat} (h : c ∈ natChars n) :
    ∃ d, d < 10 ∧ c = digitChar d := by
  rw [natChars_eq_digits] at h
  by_cases h0 : n = 0
  · rw [if_pos h0] at h
    simp only [List.mem_singleton] at h
    exact ⟨0, by norm_num, by rw [h]; rfl⟩
  · rw [if_neg h0] at h
    rw [List.mem_reverse, List.mem_map] at h
    obtain ⟨d, hd, rfl⟩ := h
    exact ⟨d, Nat.digits_lt_base (by norm_num) hd, rfl⟩

lemma digitVal_digitChar {d : Nat} (h : d < 10) :
    digitVal (digitChar d) = d := by
  interval_cases d <;> decide

lemma isDigit_digitChar {d : Nat} (h : d < 10) :
    (digitChar d).isDigit = true := by
  interval_cases d <;> decide

lemma isDigit_of_mem_natChars {c : Char} {n : Nat} (h : c ∈ natChars n) :
    c.isDigit = true := by
  obtain ⟨d, hd, rfl⟩ := mem_natChars h
  exact isDigit_digitChar hd

lemma natChars_ne_nil (n : Nat) : natChars n ≠ [] := by
  rw [natChars_eq_digits]
  by_cases h0 : n = 0
  · simp [h0]
  · rw [if_neg h0]
    simp [Nat.digits_ne_nil_iff_ne_zero, h0]

lemma mem_padZero {c : Char} {w : Nat} {l : List Char}
    (h : c ∈ padZero w l) : c = '0' ∨ c ∈ l := by
  unfold padZero at h
  rw [List.mem_append, List.mem_replicate] at h
  tauto

lemma padZero_ne_nil {w : Nat} {l : List Char} (h : l ≠ []) :
    padZero w l ≠ [] := by
  unfold padZero
  simp [h]

lemma isDigit_of_mem_padZero_natChars {c : Char} {w n : Nat}
    (h : c ∈ padZero w (natChars n)) : c.isDigit = true := by
  rcases mem_padZero h with h0 | hm
  · rw [h0]; decide
  · exact isDigit_of_mem_natChars hm

lemma foldl_natChars (n : Nat) :
    (natChars n).foldl (fun a c => 10 * a + digitVal c) 0 = n := by
  rw [natChars_eq_digits]
  by_cases h0 : n = 0
  · simp [h0, digitVal]
  · rw [if_neg h0, List.foldl_reverse, List.foldr_map]
    have key : ∀ L : List Nat, (∀ d ∈ L, d < 10) →
        L.foldr (fun d a => 10 * a + digitVal (digitChar d)) 0 =
          Nat.ofDigits 10 L := by
      intro L
      induction L with
      | nil => intro _; simp [Nat.ofDigits]
      | cons d L ih =>
          intro hL
          have hd : d < 10 := hL d (List.mem_cons_self ..)
          rw [List.foldr_cons, ih (fun x hx => hL x (List.mem_cons_of_mem _ hx)),
            Nat.ofDigits_cons, digitVal_digitChar hd]
          ring
    rw [key _ (fun d hd => Nat.digits_lt_base (by norm_num) hd)]
    exact_mod_cast Nat.ofDigits_digits 10 n

lemma foldl_padZero_natChars (w n : Nat) :
    (padZero w (natChars n)).foldl (fun a c => 10 * a + digitVal c) 0 = n := by
  unfold padZero
  rw [List.foldl_append]
  have hrep : ∀ k, (List.replicate k '0').foldl
      (fun a c => 10 * a + digitVal c) 0 = 0 := by
    intro k
    induction k with
    | zero => rfl
    | succ k ih => rw [List.replicate_succ, List.foldl_cons]; exact ih
  rw [hrep]
  exact foldl_natChars n

lemma parseNat_padZero_natChars (w n : Nat) :
    parseNat (padZero w (natChars n)) = some n := by
  unfold parseNat
  rw [if_pos, foldl_padZero_natChars]
  refine ⟨padZero_ne_nil (natChars_ne_nil n), ?_⟩
  rw [List.all_eq_true]
  intro c hc
  exact isDigit_of_mem_padZero_natChars hc

/-! ## Helper lemmas: characters of an export line -/

lemma mem_fmtDateTime {c : Char} {t : Timestamp} (h : c ∈ fmtDateTime t) :
    c.isDigit = true ∨ c = '-' ∨ c = ':' ∨ c = ' ' := by
  simp only [fmtDateTime, fmtHMS, List.mem_append, List.mem_cons] at h
  rcases h with h | h | h | h | h | h | h | h | h | h | h
  all_goals first
    | (left; exact isDigit_of_mem_padZero_natChars h)
    | (right; tauto)

lemma not_rb_mem_fmtDateTime {t : Timestamp} : ']' ∉ fmtDateTime t := by
  intro h
  rcases mem_fmtDateTime h with h | h | h | h <;> simp_all

lemma not_nl_mem_fmtDateTime {t : Timestamp} : '\n' ∉ fmtDateTime t := by
  intro h
  rcases mem_fmtDateTime h with h | h | h | h <;> simp_all

lemma not_sp_mem_idPart {n : Nat} : ' ' ∉ padZero 3 (natChars n) := by
  intro h
  have := isDigit_of_mem_padZero_natChars h
  simp at this

lemma not_rb_mem_idPart {n : Nat} : ']' ∉ padZero 3 (natChars n) := by
  intro h
  have := isDigit_of_mem_padZero_natChars h
  simp at this

lemma not_nl_mem_idPart {n : Nat} : '\n' ∉ padZero 3 (natChars n) := by
  intro h
  have := isDigit_of_mem_padZero_natChars h
  simp at this

lemma not_nl_mem_exportEntry {m : Message} (h : '\n' ∉ m.text) :
    '\n' ∉ exportEntry m := by
  intro hc
  simp only [exportEntry, List.mem_cons, List.mem_append] at hc
  rcases hc with hc | hc | hc | hc | hc | hc | hc
  · simp at hc
  · exact not_nl_mem_idPart hc
  · simp at hc
  · exact not_nl_mem_fmtDateTime hc
  · simp at hc
  · simp at hc
  · exact h hc

/-! ## Helper lemmas: re-reading an export file -/

lemma breakAt_append {c : Char} {l₁ l₂ : List Char}
    (h : ∀ a ∈ l₁, a ≠ c) : breakAt c (l₁ ++ c :: l₂) = some (l₁, l₂) := by
  induction l₁ with
  | nil => simp [breakAt]
  | cons x xs ih =>
      have hx : x ≠ c := h x (List.mem_cons_self ..)
      rw [List.cons_append, breakAt, if_neg hx,
        ih (fun a ha => h a (List.mem_cons_of_mem _ ha))]
      rfl

lemma splitLinesAux_append {a rest : List Char} (acc : List Char)
    (h : '\n' ∉ a) :
    splitLinesAux (a ++ '\n' :: rest) acc =
      (acc.reverse ++ a) :: splitLinesAux rest [] := by
  induction a generalizing acc with
  | nil => simp [splitLinesAux]
  | cons x xs ih =>
      have hx : x ≠ '\n' := by
        intro hEq; exact h (hEq ▸ List.mem_cons_self ..)
      rw [List.cons_append, splitLinesAux, if_neg hx,
        ih _ (fun hc => h (List.mem_cons_of_mem _ hc))]
      simp

lemma splitLines_append {a rest : List Char} (h : '\n' ∉ a) :
    splitLines (a ++ '\n' :: rest) = a :: splitLines rest := by
  unfold splitLines
  rw [splitLinesAux_append _ h]
  simp

lemma parseLine_exportEntry (m : Message) :
    parseLine (exportEntry m) = some (m.id, fmtDateTime m.ts, m.text) := by
  have hshape : exportEntry m =
      '[' :: ((padZero 3 (natChars m.id) ++ ' ' :: fmtDateTime m.ts) ++
        ']' :: ' ' :: m.text) := by
    simp [exportEntry]
  rw [hshape]
  have hnorb : ∀ a ∈ padZero 3 (natChars m.id) ++ ' ' :: fmtDateTime m.ts,
      a ≠ ']' := by
    intro a ha
    rw [List.mem_append, List.mem_cons] at ha
    rcases ha with ha | ha | ha
    · exact fun hEq => not_rb_mem_idPart (hEq ▸ ha)
    · rw [ha]; decide
    · exact fun hEq => not_rb_mem_fmtDateTime (hEq ▸ ha)
  have hnosp : ∀ a ∈ padZero 3 (natChars m.id), a ≠ ' ' := by
    intro a ha hEq
    exact not_sp_mem_idPart (hEq ▸ ha)
  simp only [parseLine, breakAt_append hnorb, breakAt_append hnosp,
    parseNat_padZero_natChars]

lemma parseAll_map_exportEntry {msgs : List Message} :
    parseAll (msgs.map exportEntry) =
      some (msgs.map fun m => (m.id, fmtDateTime m.ts, m.text)) := by
  induction msgs with
  | nil => rfl
  | cons m ms ih =>
      rw [List.map_cons, parseAll, parseLine_exportEntry, ih, List.map_cons]

lemma splitLines_exportFile {msgs : List Message}
    (h : ∀ m ∈ msgs, '\n' ∉ m.text) :
    splitLines (exportFile msgs) = msgs.map exportEntry ++ [[]] := by
  induction msgs with
  | nil => rfl
  | cons m ms ih =>
      have hline : exportFile (m :: ms) =
          exportEntry m ++ '\n' :: exportFile ms := by
        simp [exportFile, exportLine]
      rw [hline,
        splitLines_append (not_nl_mem_exportEntry (h m (List.mem_cons_self ..))),
        ih (fun x hx => h x (List.mem_cons_of_mem _ hx))]
      simp

lemma readExport_exportFile {msgs : List Message}
    (h : ∀ m ∈ msgs, '\n' ∉ m.text) :
    readExport (exportFile msgs) =
      some (msgs.map fun m => (m.id, fmtDateTime m.ts, m.text)) := by
  unfold readExport
  rw [splitLines_exportFile h]
  have hdrop : dropTrailingEmpty (msgs.map exportEntry ++ [[]]) =
      msgs.map exportEntry := by
    unfold dropTrailingEmpty
    rw [if_pos (by simp), List.dropLast_concat]
  rw [hdrop, parseAll_map_exportEntry]

/-! ## Helper lemmas: `pyStrip` -/

lemma dropWhile_head?_not {p : Char → Bool} {l : List Char} {c : Char}
    (h : (l.dropWhile p).head? = some c) : p c = false := by
  induction l with
  | nil => simp [List.dropWhile] at h
  | cons x xs ih =>
      rw [List.dropWhile_cons] at h
      split at h
      · exact ih h
      · simp only [List.head?_cons, Option.some.injEq] at h
        subst h
        rename_i hp
        rwa [Bool.not_eq_true] at hp

lemma dropWhile_getLast? {p : Char → Bool} {l : List Char}
    (h : l.dropWhile p ≠ []) : (l.dropWhile p).getLast? = l.getLast? := by
  induction l with
  | nil => simp [List.dropWhile] at h
  | cons x xs ih =>
      rw [List.dropWhile_cons] at h ⊢
      split
      · rename_i hp
        rw [if_pos hp] at h
        have hxs : xs ≠ [] := by
          intro h0
          rw [h0] at h
          simp [List.dropWhile] at h
        rw [ih h]
        cases xs with
        | nil => exact absurd rfl hxs
        | cons y ys => rw [List.getLast?_cons_cons]
      · rfl

lemma pyStrip_head? {s : List Char} {c : Char}
    (h : (pyStrip s).head? = some c) : isPySpace c = false := by
  unfold pyStrip at h
  rw [List.head?_reverse] at h
  have hne : (s.dropWhile isPySpace).reverse.dropWhile isPySpace ≠ [] := by
    intro h0
    rw [h0] at h
    simp at h
  rw [dropWhile_getLast? hne, List.getLast?_reverse] at h
  exact dropWhile_head?_not h

lemma pyStrip_getLast? {s : List Char} {c : Char}
    (h : (pyStrip s).getLast? = some c) : isPySpace c = false := by
  unfold pyStrip at h
  rw [List.getLast?_reverse] at h
  exact dropWhile_head?_not h

/-! ## Helper lemmas: `updAt` -/

lemma length_updAt (f : SpeechWorker → SpeechWorker)
    (ws : List SpeechWorker) (i : Nat) :
    (updAt f ws i).length = ws.length := by
  induction ws generalizing i with
  | nil => rfl
  | cons w ws ih => cases i with
      | zero => rfl
      | succ i => simp [updAt, ih]

lemma getElem?_updAt_self (f : SpeechWorker → SpeechWorker)
    (ws : List SpeechWorker) (i : Nat) :
    (updAt f ws i)[i]? = ws[i]?.map f := by
  induction ws generalizing i with
  | nil => cases i <;> simp [updAt]
  | cons w ws ih => cases i with
      | zero => simp [updAt]
      | succ i => simpa [updAt] using ih i

lemma getElem?_updAt_ne (f : SpeechWorker → SpeechWorker)
    (ws : List SpeechWorker) {i j : Nat} (h : i ≠ j) :
    (updAt f ws i)[j]? = ws[j]? := by
  induction ws generalizing i j with
  | nil => cases i <;> simp [updAt]
  | cons w ws ih =>
      cases i with
      | zero =>
          cases j with
          | zero => exact absurd rfl h
          | succ j => simp [updAt]
      | succ i =>
          cases j with
          | zero => simp [updAt]
          | succ j => simpa [updAt] using ih (fun hEq => h (by rw [hEq]))

/-! ## Frame lemmas: which fields each operation leaves unchanged -/

lemma stop_speaking_frame (s : AppState) :
    (stop_speaking s).messages = s.messages ∧
    (stop_speaking s).nextId = s.nextId ∧
    (stop_speaking s).current = s.current ∧
    (stop_speaking s).autoSpeak = s.autoSpeak ∧
    (stop_speaking s).sldRate = s.sldRate ∧
    (stop_speaking s).sldVolume = s.sldVolume ∧
    (stop_speaking s).voiceSel = s.voiceSel ∧
    (stop_speaking s).notifications = s.notifications := by
  unfold stop_speaking
  cases hc : s.current <;> simp [hc]

lemma speak_text_frame (s : AppState) (text : List Char) :
    (speak_text s text).messages = s.messages ∧
    (speak_text s text).nextId = s.nextId ∧
    (speak_text s text).autoSpeak = s.autoSpeak ∧
    (speak_text s text).notifications = s.notifications := by
  unfold speak_text
  have h := stop_speaking_frame s
  simp only []
  exact ⟨h.1, h.2.1, h.2.2.2.1, h.2.2.2.2.2.2.2⟩

lemma poll_worker_done_frame (s : AppState) :
    (poll_worker_done s).messages = s.messages ∧
    (poll_worker_done s).nextId = s.nextId ∧
    (poll_worker_done s).workers = s.workers ∧
    (poll_worker_done s).autoSpeak = s.autoSpeak := by
  unfold poll_worker_done
  cases hc : s.current with
  | none => simp
  | some i =>
      simp only []
      cases hw : s.workers[i]? with
      | none => simp
      | some w =>
          simp only []
          by_cases h : w.alive <;> simp [h]

/-! ## Invariants of reachable states -/

/-- At most one un-cancelled speech session: any worker that is alive with a
clear stop flag is the one the `current_worker` reference points at. -/
def WorkersInv (s : AppState) : Prop :=
  ∀ (j : Nat) (w : SpeechWorker), s.workers[j]? = some w →
    w.alive = true → w.stopFlag = false → s.current = some j

/-- Message ids grow strictly along the history and stay below `next_id`. -/
def MsgIdsInv (s : AppState) : Prop :=
  s.messages.Pairwise (fun a b => a.id < b.id) ∧
  ∀ m ∈ s.messages, m.id < s.nextId

/-- Stored texts are non-empty and carry no leading/trailing whitespace. -/
def TextInv (s : AppState) : Prop :=
  ∀ m ∈ s.messages, m.text ≠ [] ∧
    (∀ c, m.text.head? = some c → isPySpace c = false) ∧
    (∀ c, m.text.getLast? = some c → isPySpace c = false)

/-- The fresh worker `_speak_text` constructs and starts. -/
def newWorker (s : AppState) (text : List Char) : SpeechWorker :=
  { text := text, voiceId := s.voiceSel, rate := pyInt s.sldRate,
    volume := volClamp s.sldVolume, stopFlag := false,
    alive := true, exc := none }

lemma speak_text_eq (s : AppState) (text : List Char) :
    speak_text s text =
      { stop_speaking s with
        workers := (stop_speaking s).workers ++ [newWorker s text]
        current := some (stop_speaking s).workers.length } := by
  have h := stop_speaking_frame s
  unfold speak_text newWorker
  simp only []
  rw [h.2.2.2.2.1, h.2.2.2.2.2.1, h.2.2.2.2.2.2.1]

lemma getElem?_append_length {α : Type} (l : List α) (a : α) :
    (l ++ [a])[l.length]? = some a := by
  simp

/-- After `stop_speaking` no worker at all is alive with a clear flag
(assuming the invariant beforehand): the current worker was either flagged or
already dead, every other one was covered by the invariant. -/
lemma stop_speaking_kills {s : AppState} (h : WorkersInv s) :
    ∀ (j : Nat) (w : SpeechWorker), (stop_speaking s).workers[j]? = some w →
      w.alive = true → w.stopFlag = false → False := by
  intro j w hj ha hf
  unfold stop_speaking at hj
  cases hc : s.current with
  | none =>
      rw [hc] at hj
      have hcur := h j w hj ha hf
      rw [hc] at hcur
      exact Option.noConfusion hcur
  | some i =>
      rw [hc] at hj
      simp only [] at hj
      by_cases hij : i = j
      · subst hij
        rw [getElem?_updAt_self] at hj
        rcases hmap : s.workers[i]? with _ | w' <;> rw [hmap] at hj
        · exact Option.noConfusion hj
        · have hw : (if w'.alive then w'.stop else w') = w :=
            Option.some.inj hj
          by_cases hal : w'.alive
          · rw [if_pos hal] at hw
            rw [← hw] at hf
            exact Bool.noConfusion hf
          · rw [if_neg hal] at hw
            rw [← hw] at ha
            exact hal ha
      · rw [getElem?_updAt_ne _ _ hij] at hj
        have hcur := h j w hj ha hf
        rw [hc] at hcur
        exact hij (Option.some.inj hcur)

lemma workersInv_stop_speaking {s : AppState} (h : WorkersInv s) :
    WorkersInv (stop_speaking s) := by
  intro j w hj ha hf
  exact (stop_speaking_kills h j w hj ha hf).elim

lemma workersInv_speak_text {s : AppState} (text : List Char)
    (h : WorkersInv s) : WorkersInv (speak_text s text) := by
  intro j w hj ha hf
  rw [speak_text_eq] at hj ⊢
  simp only [] at hj ⊢
  rcases lt_trichotomy j (stop_speaking s).workers.length with hlt | hEq | hgt
  · rw [List.getElem?_append_left hlt] at hj
    exact (stop_speaking_kills h j w hj ha hf).elim
  · rw [hEq]
  · rw [List.getElem?_eq_none (by simp; omega)] at hj
    exact Option.noConfusion hj

lemma workersInv_poll {s : AppState} (h : WorkersInv s) :
    WorkersInv (poll_worker_done s) := by
  intro j w hj ha hf
  rw [(poll_worker_done_frame s).2.2.1] at hj
  have hcur := h j w hj ha hf
  unfold poll_worker_done
  rw [hcur]
  simp only []
  rw [hj]
  simp only []
  rw [if_pos ha]
  exact hcur

lemma workersInv_finish {s : AppState} (i : Nat) (evs : List EngineEvent)
    (h : WorkersInv s) : WorkersInv (worker_finish s i evs) := by
  intro j w hj ha hf
  unfold worker_finish at hj ⊢
  simp only [] at hj ⊢
  by_cases hij : i = j
  · subst hij
    rw [getElem?_updAt_self] at hj
    rcases hmap : s.workers[i]? with _ | w' <;> rw [hmap] at hj
    · exact Option.noConfusion hj
    · have hw := Option.some.inj hj
      rw [← hw] at ha
      exact Bool.noConfusion ha
  · rw [getElem?_updAt_ne _ _ hij] at hj
    exact h j w hj ha hf

lemma workersInv_send_message {s : AppState} (input : List Char)
    (now : Timestamp) (h : WorkersInv s) :
    WorkersInv (send_message s input now) := by
  unfold send_message
  simp only []
  by_cases hemp : pyStrip input = []
  · rw [if_pos hemp]; exact h
  · rw [if_neg hemp]
    split
    · exact workersInv_speak_text _ (fun j w hj ha hf => h j w hj ha hf)
    · exact fun j w hj ha hf => h j w hj ha hf

lemma workersInv_replay {s : AppState} (h : WorkersInv s) :
    WorkersInv (replay_last s) := by
  unfold replay_last
  cases s.messages.getLast? with
  | none => exact h
  | some m => exact workersInv_speak_text _ h

/-! ## Behaviour of `send_message` -/

lemma send_message_empty {s : AppState} {input : List Char} {now : Timestamp}
    (h : pyStrip input = []) : send_message s input now = s := by
  unfold send_message
  simp [h]

lemma send_message_fields {s : AppState} {input : List Char} {now : Timestamp}
    (h : pyStrip input ≠ []) :
    (send_message s input now).messages =
        s.messages ++ [⟨s.nextId, now, pyStrip input⟩] ∧
    (send_message s input now).nextId = s.nextId + 1 ∧
    (send_message s input now).notifications = s.notifications := by
  unfold send_message
  simp only [if_neg h]
  split
  · have hf := speak_text_frame { s with
      messages := s.messages ++ [⟨s.nextId, now, pyStrip input⟩]
      nextId := s.nextId + 1 } (pyStrip input)
    exact ⟨hf.1, hf.2.1, hf.2.2.2⟩
  · exact ⟨rfl, rfl, rfl⟩

/-! ## Preservation of the message invariants -/

lemma msgIdsInv_send_message {s : AppState} (input : List Char)
    (now : Timestamp) (h : MsgIdsInv s) :
    MsgIdsInv (send_message s input now) := by
  by_cases hemp : pyStrip input = []
  · rw [send_message_empty hemp]; exact h
  · obtain ⟨hmsg, hnext, -⟩ := @send_message_fields s input now hemp
    constructor
    · rw [hmsg, List.pairwise_append]
      refine ⟨h.1, by simp, ?_⟩
      intro a ha b hb
      rw [List.mem_singleton] at hb
      rw [hb]
      exact h.2 a ha
    · intro m hm
      rw [hmsg] at hm
      rw [hnext]
      rcases List.mem_append.mp hm with hm | hm
      · exact Nat.lt_succ_of_lt (h.2 m hm)
      · rw [List.mem_singleton] at hm
        rw [hm]
        exact Nat.lt_succ_self _

lemma textInv_send_message {s : AppState} (input : List Char)
    (now : Timestamp) (h : TextInv s) :
    TextInv (send_message s input now) := by
  by_cases hemp : pyStrip input = []
  · rw [send_message_empty hemp]; exact h
  · obtain ⟨hmsg, -, -⟩ := @send_message_fields s input now hemp
    intro m hm
    rw [hmsg] at hm
    rcases List.mem_append.mp hm with hm | hm
    · exact h m hm
    · rw [List.mem_singleton] at hm
      subst hm
      exact ⟨hemp, fun c hc => pyStrip_head? hc, fun c hc => pyStrip_getLast? hc⟩

lemma msgIdsInv_ctx_delete {s : AppState} (k : Nat) (h : MsgIdsInv s) :
    MsgIdsInv (ctx_delete s k) := by
  constructor
  · exact h.1.sublist (List.filter_sublist _)
  · intro m hm
    exact h.2 m (List.mem_of_mem_filter hm)

lemma textInv_ctx_delete {s : AppState} (k : Nat) (h : TextInv s) :
    TextInv (ctx_delete s k) := by
  intro m hm
  exact h m (List.mem_of_mem_filter hm)

lemma clear_log_cases (s : AppState) (confirm : Bool) :
    clear_log s confirm = s ∨
      clear_log s confirm = { s with messages := [] } := by
  unfold clear_log
  by_cases h0 : s.messages = []
  · left; rw [if_pos h0]
  · rw [if_neg h0]
    cases confirm
    · left; rfl
    · right; rfl

/-! ## The combined reachability invariant -/

lemma reachable_inv {s : AppState} (h : Reachable s) :
    WorkersInv s ∧ MsgIdsInv s ∧ TextInv s := by
  induction h with
  | init rate vol voice =>
      refine ⟨?_, ⟨?_, ?_⟩, ?_⟩
      · intro j w hj ha hf
        simp [initState] at hj
      · simp [initState]
      · simp [initState]
      · intro m hm
        simp [initState] at hm
  | submit input now _ ih =>
      exact ⟨workersInv_send_message input now ih.1,
        msgIdsInv_send_message input now ih.2.1,
        textInv_send_message input now ih.2.2⟩
  | @speak s' text _ ih =>
      refine ⟨workersInv_speak_text text ih.1, ?_, ?_⟩
      · have hf := speak_text_frame s' text
        exact ⟨hf.1 ▸ ih.2.1.1, fun m hm => hf.2.1 ▸ ih.2.1.2 m (hf.1 ▸ hm)⟩
      · have hf := speak_text_frame s' text
        exact fun m hm => ih.2.2 m (hf.1 ▸ hm)
  | @replay s' _ ih =>
      refine ⟨workersInv_replay ih.1, ?_, ?_⟩
      · unfold replay_last
        cases s'.messages.getLast? with
        | none => exact ih.2.1
        | some m =>
            have hf := speak_text_frame s' m.text
            exact ⟨hf.1 ▸ ih.2.1.1, fun x hx => hf.2.1 ▸ ih.2.1.2 x (hf.1 ▸ hx)⟩
      · unfold replay_last
        cases s'.messages.getLast? with
        | none => exact ih.2.2
        | some m =>
            have hf := speak_text_frame s' m.text
            exact fun x hx => ih.2.2 x (hf.1 ▸ hx)
  | @stop s' _ ih =>
      refine ⟨workersInv_stop_speaking ih.1, ?_, ?_⟩
      · have hf := stop_speaking_frame s'
        exact ⟨hf.1 ▸ ih.2.1.1, fun m hm => hf.2.1 ▸ ih.2.1.2 m (hf.1 ▸ hm)⟩
      · have hf := stop_speaking_frame s'
        exact fun m hm => ih.2.2 m (hf.1 ▸ hm)
  | @poll s' _ ih =>
      refine ⟨workersInv_poll ih.1, ?_, ?_⟩
      · have hf := poll_worker_done_frame s'
        exact ⟨hf.1 ▸ ih.2.1.1, fun m hm => hf.2.1 ▸ ih.2.1.2 m (hf.1 ▸ hm)⟩
      · have hf := poll_worker_done_frame s'
        exact fun m hm => ih.2.2 m (hf.1 ▸ hm)
  | delete k _ ih =>
      exact ⟨fun j w hj ha hf => ih.1 j w hj ha hf,
        msgIdsInv_ctx_delete k ih.2.1, textInv_ctx_delete k ih.2.2⟩
  | clear confirm _ ih =>
      rcases clear_log_cases _ confirm with hEq | hEq <;> rw [hEq]
      · exact ih
      · refine ⟨fun j w hj ha hf => ih.1 j w hj ha hf, ⟨?_, ?_⟩, ?_⟩
        · simp
        · simp
        · intro m hm
          simp at hm
  | finish i evs _ _ ih =>
      refine ⟨workersInv_finish i evs ih.1, ?_, ?_⟩
      · exact ⟨ih.2.1.1, ih.2.1.2⟩
      · exact ih.2.2
  | toggleAuto b _ ih =>
      exact ⟨fun j w hj ha hf => ih.1 j w hj ha hf, ih.2.1, ih.2.2⟩
  | setRate q _ ih =>
      exact ⟨fun j w hj ha hf => ih.1 j w hj ha hf, ih.2.1, ih.2.2⟩
  | setVolume q _ ih =>
      exact ⟨fun j w hj ha hf => ih.1 j w hj ha hf, ih.2.1, ih.2.2⟩
  | setVoice v _ ih =>
      exact ⟨fun j w hj ha hf => ih.1 j w hj ha hf, ih.2.1, ih.2.2⟩

/-! ## Helper lemmas: the run of a worker -/

lemma runExc_cancel {pre rest : List EngineEvent}
    (h : ∀ e ∈ pre, e = EngineEvent.word false) :
    runExc (pre ++ EngineEvent.word true :: rest) = none := by
  induction pre with
  | nil => rfl
  | cons e pre ih =>
      have he := h e (List.mem_cons_self ..)
      subst he
      rw [List.cons_append, runExc]
      exact ih (fun x hx => h x (List.mem_cons_of_mem _ hx))

lemma runExc_err {pre rest : List EngineEvent} {e : List Char}
    (h : ∀ x ∈ pre, x = EngineEvent.word false) :
    runExc (pre ++ EngineEvent.err e :: rest) = some e := by
  induction pre with
  | nil => rfl
  | cons x pre ih =>
      have hx := h x (List.mem_cons_self ..)
      subst hx
      rw [List.cons_append, runExc]
      exact ih (fun y hy => h y (List.mem_cons_of_mem _ hy))

lemma worker_finish_getElem? (s : AppState) (i : Nat)
    (evs : List EngineEvent) :
    (worker_finish s i evs).workers[i]? =
      (s.workers[i]?).map
        (fun w => { w with alive := false, exc := runExc evs }) := by
  unfold worker_finish
  simp only []
  exact getElem?_updAt_self _ _ _

lemma poll_worker_done_found {s : AppState} {i : Nat} {w : SpeechWorker}
    (hc : s.current = some i) (hw : s.workers[i]? = some w)
    (ha : w.alive = false) :
    (poll_worker_done s).current = none ∧
    (poll_worker_done s).notifications = s.notifications ++
      (match w.exc with | some e => [e] | none => []) := by
  unfold poll_worker_done
  rw [hc]
  simp only []
  rw [hw]
  simp only []
  rw [if_neg (by rw [ha]; exact Bool.false_ne_true)]
  exact ⟨rfl, rfl⟩

lemma notifications_frame (s : AppState) :
    (∀ input now, (send_message s input now).notifications = s.notifications) ∧
    (∀ text, (speak_text s text).notifications = s.notifications) ∧
    (stop_speaking s).notifications = s.notifications ∧
    (replay_last s).notifications = s.notifications ∧
    (∀ k, (ctx_delete s k).notifications = s.notifications) ∧
    (∀ confirm, (clear_log s confirm).notifications = s.notifications) ∧
    (∀ i evs, (worker_finish s i evs).notifications = s.notifications) := by
  refine ⟨?_, ?_, ?_, ?_, ?_, ?_, ?_⟩
  · intro input now
    by_cases hemp : pyStrip input = []
    · rw [send_message_empty hemp]
    · exact (send_message_fields hemp).2.2
  · intro text
    exact (speak_text_frame s text).2.2.2
  · exact (stop_speaking_frame s).2.2.2.2.2.2.2
  · unfold replay_last
    cases s.messages.getLast? with
    | none => rfl
    | some m => exact (speak_text_frame s m.text).2.2.2
  · intro k
    rfl
  · intro confirm
    rcases clear_log_cases s confirm with hEq | hEq <;> rw [hEq]
  · intro i evs
    rfl

/-! ## The claims -/

/-- C2: for every session whose cancel flag is set while its utterance is in
progress (so that the run's word-boundary checkpoints before the abort all saw
a clear flag and the abort is raised at the next checkpoint), the `SystemExit`
abort never sets the captured-failure field: `run` leaves `exc = None`, both
as a function of the engine events and in the worker record the finished
thread leaves behind. -/
theorem C2_cancel_never_sets_exc (pre rest : List EngineEvent)
    (h : ∀ e ∈ pre, e = EngineEvent.word false) :
    runExc (pre ++ EngineEvent.word true :: rest) = none ∧
    ∀ (s : AppState) (i : Nat) (w' : SpeechWorker),
      (worker_finish s i (pre ++ EngineEvent.word true :: rest)).workers[i]? =
        some w' → w'.exc = none := by
  refine ⟨runExc_cancel h, ?_⟩
  intro s i w' hw
  rw [worker_finish_getElem?] at hw
  rcases hmap : s.workers[i]? with _ | w <;> rw [hmap] at hw
  · exact Option.noConfusion hw
  · have hv := Option.some.inj hw
    rw [← hv]
    exact runExc_cancel h

/-- Witness for C2 at a concrete trace: one clear-flag word boundary, then the
cancellation checkpoint, then a late engine error that the aborted run never
reaches. -/
theorem C2_witness :
    runExc [EngineEvent.word false, EngineEvent.word true,
      EngineEvent.err ['b']] = none :=
  (C2_cancel_never_sets_exc [EngineEvent.word false] [EngineEvent.err ['b']]
    (by decide)).1

/-- C3: an unexpected engine failure during the utterance is stored in the
session's `exc` field (the run function returns it instead of letting it
escape), the worker record after the thread finishes holds exactly that
captured value, the manager's poll step surfaces the captured failure and
clears the current-session reference, and no other operation of the app ever
touches the surfaced-notification list. -/
theorem C3_failure_captured_and_surfaced :
    (∀ (pre rest : List EngineEvent) (e : List Char),
      (∀ x ∈ pre, x = EngineEvent.word false) →
      runExc (pre ++ EngineEvent.err e :: rest) = some e) ∧
    (∀ (s : AppState) (i : Nat) (evs : List EngineEvent) (w' : SpeechWorker),
      (worker_finish s i evs).workers[i]? = some w' → w'.exc = runExc evs) ∧
    (∀ (s : AppState) (i : Nat) (w : SpeechWorker) (e : List Char),
      s.current = some i → s.workers[i]? = some w → w.alive = false →
      w.exc = some e →
      (poll_worker_done s).current = none ∧
      (poll_worker_done s).notifications = s.notifications ++ [e]) ∧
    (∀ s : AppState,
      (∀ input now, (send_message s input now).notifications =
        s.notifications) ∧
      (∀ text, (speak_text s text).notifications = s.notifications) ∧
      (stop_speaking s).notifications = s.notifications ∧
      (replay_last s).notifications = s.notifications ∧
      (∀ k, (ctx_delete s k).notifications = s.notifications) ∧
      (∀ confirm, (clear_log s confirm).notifications = s.notifications) ∧
      (∀ i evs, (worker_finish s i evs).notifications = s.notifications)) := by
  refine ⟨fun pre rest e h => runExc_err h, ?_, ?_, notifications_frame⟩
  · intro s i evs w' hw
    rw [worker_finish_getElem?] at hw
    rcases hmap : s.workers[i]? with _ | w <;> rw [hmap] at hw
    · exact Option.noConfusion hw
    · have hv := Option.some.inj hw
      rw [← hv]
  · intro s i w e hc hw ha hexc
    have h := poll_worker_done_found hc hw ha
    rw [hexc] at h
    exact h

/-- Witness for C3 at a concrete run: a session that fails with `b` is
finished, polled, the failure is surfaced once, and the current reference is
cleared. -/
theorem C3_witness :
    (poll_worker_done (worker_finish
      (speak_text (initState 180 100 none) ['h']) 0
      [EngineEvent.err ['b']])).current = none ∧
    (poll_worker_done (worker_finish
      (speak_text (initState 180 100 none) ['h']) 0
      [EngineEvent.err ['b']])).notifications = [['b']] := by
  have h := C3_failure_captured_and_surfaced.2.2.1
    (worker_finish (speak_text (initState 180 100 none) ['h']) 0
      [EngineEvent.err ['b']])
    0
    { newWorker (initState 180 100 none) ['h'] with
      alive := false
      exc := runExc [EngineEvent.err ['b']] }
    ['b'] rfl rfl rfl rfl
  exact h

/-- C4: submitting empty or whitespace-only input changes nothing: no message
is appended, no id assigned, no speech session started — the whole
application state is unchanged. -/
theorem C4_blank_submit_noop (s : AppState) (input : List Char)
    (now : Timestamp) (h : pyStrip input = []) :
    send_message s input now = s :=
  send_message_empty h

/-- Witness for C4 at a concrete whitespace-only input. -/
theorem C4_witness :
    pyStrip [' ', '\t', '\n'] = [] ∧
    send_message (initState 180 100 none) [' ', '\t', '\n']
      ⟨2024, 5, 6, 7, 8, 9⟩ = initState 180 100 none :=
  ⟨by decide, C4_blank_submit_noop _ _ _ (by decide)⟩

/-- C7: the worker a speech session starts with carries the rate slider value
truncated to an integer and the volume slider value divided by 100 and
clamped to `[0, 1]`; in particular rate 80 and 260 pass through unmodified,
and volume 0 and 100 map to 0.0 and 1.0. -/
theorem C7_slider_mapping (s : AppState) (text : List Char) :
    (speak_text s text).workers.getLast? = some (newWorker s text) ∧
    (newWorker s text).rate = pyInt s.sldRate ∧
    (newWorker s text).volume = volClamp s.sldVolume ∧
    pyInt 80 = 80 ∧ pyInt 260 = 260 ∧
    volClamp 0 = 0 ∧ volClamp 100 = 1 := by
  refine ⟨?_, rfl, rfl, ?_, ?_, ?_, ?_⟩
  · rw [speak_text_eq]
    simp
  · have h80 : ((80 : ℤ) : ℚ) = (80 : ℚ) := by norm_num
    rw [pyInt, if_pos (by norm_num), ← h80, Int.floor_intCast]
  · have h260 : ((260 : ℤ) : ℚ) = (260 : ℚ) := by norm_num
    rw [pyInt, if_pos (by norm_num), ← h260, Int.floor_intCast]
  · rw [volClamp]
    norm_num
  · rw [volClamp]
    norm_num

/-- C5 (counterexample): a message whose text contains an embedded newline —
reachable, since `send_message` strips only leading and trailing whitespace
and Shift+Enter inserts literal newlines — is written across two physical
lines, so re-reading the export does not reproduce one entry per message. -/
theorem C5_counterexample :
    (send_message (initState 180 100 none) ['a', '\n', 'b']
        ⟨2024, 5, 6, 7, 8, 9⟩).messages =
      [⟨1, ⟨2024, 5, 6, 7, 8, 9⟩, ['a', '\n', 'b']⟩] ∧
    readExport (exportFile [⟨1, ⟨2024, 5, 6, 7, 8, 9⟩, ['a', '\n', 'b']⟩]) ≠
      some (([⟨1, ⟨2024, 5, 6, 7, 8, 9⟩, ['a', '\n', 'b']⟩] :
          List Message).map (fun m => (m.id, fmtDateTime m.ts, m.text))) := by
  exact ⟨rfl, by decide⟩

/-- C5 (amended): for every non-empty message history all of whose texts are
free of embedded newlines, exporting and re-reading the export file
reproduces, for each message, its id, its formatted timestamp and its exact
stored text, one entry per message in original order. -/
theorem C5_roundtrip (msgs : List Message) (_h0 : msgs ≠ [])
    (h : ∀ m ∈ msgs, '\n' ∉ m.text) :
    readExport (exportFile msgs) =
      some (msgs.map (fun m => (m.id, fmtDateTime m.ts, m.text))) :=
  readExport_exportFile h

/-- Witness for C5 at a concrete one-message history. -/
theorem C5_witness :
    readExport (exportFile [⟨1, ⟨2024, 5, 6, 7, 8, 9⟩, ['h', 'i']⟩]) =
      some [(1, fmtDateTime ⟨2024, 5, 6, 7, 8, 9⟩, ['h', 'i'])] :=
  C5_roundtrip _ (by decide) (by decide)

/-- The line format the spec prescribes for one exported message, following
the spec's words: `[`, the id zero-padded to (at least) three digits, a
space, the local timestamp, `]`, a space, the message text. -/
def specLine (m : Message) : List Char :=
  '[' :: (padZero 3 (natChars m.id) ++ ' ' ::
    (fmtDateTime m.ts ++ ']' :: ' ' :: m.text))

/-- C6 (counterexample): for a message with an embedded newline the exported
file does not contain exactly one line of the prescribed form for that
message — its text is split across two lines. -/
theorem C6_counterexample :
    dropTrailingEmpty (splitLines (exportFile
      [⟨2, ⟨2024, 5, 6, 7, 8, 9⟩, ['a', '\n', 'b']⟩])) ≠
      [specLine ⟨2, ⟨2024, 5, 6, 7, 8, 9⟩, ['a', '\n', 'b']⟩] := by
  decide

/-- C6 (amended): for every history of newline-free texts, the lines of the
exported file are exactly one line per message, in order, each of the form
`[<zero-padded-to-3 id> <timestamp>] <text>`. -/
theorem C6_export_line_format (msgs : List Message)
    (h : ∀ m ∈ msgs, '\n' ∉ m.text) :
    dropTrailingEmpty (splitLines (exportFile msgs)) = msgs.map specLine := by
  rw [splitLines_exportFile h]
  unfold dropTrailingEmpty
  rw [if_pos (by simp), List.dropLast_concat]
  rfl

/-- Witness for C6 at a concrete one-message history. -/
theorem C6_witness :
    dropTrailingEmpty (splitLines (exportFile
      [⟨1, ⟨2024, 5, 6, 7, 8, 9⟩, ['o', 'k']⟩])) =
      [specLine ⟨1, ⟨2024, 5, 6, 7, 8, 9⟩, ['o', 'k']⟩] :=
  C6_export_line_format _ (by decide)

/-- C1: in every reachable state any alive worker whose stop flag is clear is
the current worker (so at most one un-cancelled session runs at any time),
and a speak request arriving while a session is alive flags that session for
cancellation in the very state in which the new session — constructed fresh
with a clear flag — is appended and made current. -/
theorem C1_single_session {s : AppState} (hs : Reachable s) :
    (∀ (j : Nat) (w : SpeechWorker), s.workers[j]? = some w →
      w.alive = true → w.stopFlag = false → s.current = some j) ∧
    (∀ (text : List Char) (i : Nat) (w : SpeechWorker),
      s.current = some i → s.workers[i]? = some w → w.alive = true →
      (speak_text s text).workers[i]? = some { w with stopFlag := true } ∧
      (speak_text s text).current = some s.workers.length ∧
      i ≠ s.workers.length ∧
      (speak_text s text).workers[s.workers.length]? =
        some (newWorker s text)) := by
  refine ⟨(reachable_inv hs).1, ?_⟩
  intro text i w hc hw ha
  have hilt : i < s.workers.length := by
    by_contra hge
    rw [List.getElem?_eq_none (Nat.le_of_not_lt hge)] at hw
    exact Option.noConfusion hw
  have hws : (stop_speaking s).workers =
      updAt (fun w => if w.alive then w.stop else w) s.workers i := by
    unfold stop_speaking
    rw [hc]
  have hlen : (stop_speaking s).workers.length = s.workers.length := by
    rw [hws, length_updAt]
  refine ⟨?_, ?_, Nat.ne_of_lt hilt, ?_⟩
  · rw [speak_text_eq]
    simp only []
    rw [List.getElem?_append_left (by rw [hlen]; exact hilt), hws,
      getElem?_updAt_self, hw]
    simp [SpeechWorker.stop, ha]
  · rw [speak_text_eq]
    simp only []
    rw [hlen]
  · rw [speak_text_eq]
    simp only []
    rw [← hlen, getElem?_append_length]

/-- Witness for C1: a second speak request while the first session is alive
flags the first worker and makes the fresh second worker current. -/
theorem C1_witness :
    (speak_text (speak_text (initState 180 100 none) ['h', 'i'])
        ['y', 'o']).workers[0]? =
      some { newWorker (initState 180 100 none) ['h', 'i'] with
        stopFlag := true } ∧
    (speak_text (speak_text (initState 180 100 none) ['h', 'i'])
        ['y', 'o']).current = some 1 := by
  have h := (C1_single_session
    (Reachable.speak ['h', 'i'] (Reachable.init 180 100 none))).2
    ['y', 'o'] 0 (newWorker (initState 180 100 none) ['h', 'i']) rfl rfl rfl
  exact ⟨h.1, h.2.1⟩

/-- C8: in every reachable state, deleting a message id that occurs in the
history removes exactly that one entry, keeps every other message in order,
and leaves the workers, the current-session reference, the id counter and
the notifications untouched. -/
theorem C8_delete_exactly_one {s : AppState} (hs : Reachable s)
    (pre post : List Message) (m : Message) (k : Nat)
    (hmsg : s.messages = pre ++ m :: post) (hk : m.id = k) :
    (ctx_delete s k).messages = pre ++ post ∧
    (ctx_delete s k).workers = s.workers ∧
    (ctx_delete s k).current = s.current ∧
    (ctx_delete s k).nextId = s.nextId ∧
    (ctx_delete s k).notifications = s.notifications := by
  refine ⟨?_, rfl, rfl, rfl, rfl⟩
  have hpair := (reachable_inv hs).2.1.1
  rw [hmsg] at hpair
  rw [List.pairwise_append] at hpair
  obtain ⟨hpre, hmp, hcross⟩ := hpair
  rw [List.pairwise_cons] at hmp
  obtain ⟨hpost, -⟩ := hmp
  show List.filter _ s.messages = pre ++ post
  rw [hmsg, List.filter_append]
  congr 1
  · apply List.filter_eq_self.mpr
    intro a ha
    have hlt : a.id < m.id := hcross a ha m (List.mem_cons_self ..)
    simp only [decide_eq_true_eq]
    omega
  · rw [List.filter_cons, if_neg (by simp [hk])]
    apply List.filter_eq_self.mpr
    intro a ha
    have hlt : m.id < a.id := hpost a ha
    simp only [decide_eq_true_eq]
    omega

/-- Witness for C8: deleting the only message of a one-message reachable
history empties it and leaves the current-session reference alone. -/
theorem C8_witness :
    (ctx_delete (send_message (initState 180 100 none) ['h', 'i']
        ⟨2024, 5, 6, 7, 8, 9⟩) 1).messages = [] ∧
    (ctx_delete (send_message (initState 180 100 none) ['h', 'i']
        ⟨2024, 5, 6, 7, 8, 9⟩) 1).current =
      (send_message (initState 180 100 none) ['h', 'i']
        ⟨2024, 5, 6, 7, 8, 9⟩).current := by
  have h := C8_delete_exactly_one
    (Reachable.submit ['h', 'i'] ⟨2024, 5, 6, 7, 8, 9⟩
      (Reachable.init 180 100 none))
    [] [] ⟨1, ⟨2024, 5, 6, 7, 8, 9⟩, ['h', 'i']⟩ 1 rfl rfl
  exact ⟨h.1, h.2.2.1⟩

/-- C9: a successful submit appends a message carrying the current `next_id`
and bumps the counter; consequently, in every reachable state, message ids
are strictly increasing in list order, stay below the counter, and the id a
new message would get is never one already in the history — deletion and
clearing never reset the counter. -/
theorem C9_fresh_monotonic_ids {s : AppState} (hs : Reachable s) :
    s.messages.Pairwise (fun a b => a.id < b.id) ∧
    (∀ m ∈ s.messages, m.id < s.nextId) ∧
    ∀ (input : List Char) (now : Timestamp), pyStrip input ≠ [] →
      (send_message s input now).messages =
        s.messages ++ [⟨s.nextId, now, pyStrip input⟩] ∧
      (send_message s input now).nextId = s.nextId + 1 ∧
      ∀ m ∈ s.messages, m.id ≠ s.nextId := by
  have hinv := (reachable_inv hs).2.1
  refine ⟨hinv.1, hinv.2, ?_⟩
  intro input now hemp
  obtain ⟨h1, h2, -⟩ := send_message_fields hemp
  exact ⟨h1, h2, fun m hm => Nat.ne_of_lt (hinv.2 m hm)⟩

/-- Witness for C9: the first submit stores id 1 and moves the counter
to 2. -/
theorem C9_witness :
    (send_message (initState 180 100 none) ['h', 'i']
        ⟨2024, 5, 6, 7, 8, 9⟩).messages =
      [⟨1, ⟨2024, 5, 6, 7, 8, 9⟩, ['h', 'i']⟩] ∧
    (send_message (initState 180 100 none) ['h', 'i']
        ⟨2024, 5, 6, 7, 8, 9⟩).nextId = 2 := by
  have h := (C9_fresh_monotonic_ids (Reachable.init 180 100 none)).2.2
    ['h', 'i'] ⟨2024, 5, 6, 7, 8, 9⟩ (by decide)
  exact ⟨h.1, h.2.1⟩

/-- C10: the text stored by a submit is the input stripped of leading and
trailing whitespace, so in every reachable state no stored text is empty or
starts or ends with whitespace; and the text handed to the speech session a
submit starts (when auto-speak is on) is exactly the stored text. -/
theorem C10_texts_stripped {s : AppState} (hs : Reachable s) :
    (∀ m ∈ s.messages, m.text ≠ [] ∧
      (∀ c, m.text.head? = some c → isPySpace c = false) ∧
      (∀ c, m.text.getLast? = some c → isPySpace c = false)) ∧
    ∀ (input : List Char) (now : Timestamp), pyStrip input ≠ [] →
      (send_message s input now).messages =
        s.messages ++ [⟨s.nextId, now, pyStrip input⟩] ∧
      (s.autoSpeak = true →
        ((send_message s input now).workers.getLast?).map SpeechWorker.text =
          some (pyStrip input)) := by
  refine ⟨(reachable_inv hs).2.2, ?_⟩
  intro input now hemp
  refine ⟨(send_message_fields hemp).1, ?_⟩
  intro hauto
  unfold send_message
  simp only [if_neg hemp]
  split
  · rw [speak_text_eq]
    simp [newWorker]
  · rename_i hcond
    exact absurd hauto hcond

/-- Witness for C10: the submit of a padded input stores and speaks the
stripped text. -/
theorem C10_witness :
    ((send_message (initState 180 100 none) [' ', 'h', 'i', ' ']
        ⟨2024, 5, 6, 7, 8, 9⟩).workers.getLast?).map SpeechWorker.text =
      some ['h', 'i'] := by
  have h := (C10_texts_stripped (Reachable.init 180 100 none)).2
    [' ', 'h', 'i', ' '] ⟨2024, 5, 6, 7, 8, 9⟩ (by decide)
  exact h.2 rfl

end TTS

